import Mathlib

/-!
Shallow embedding of the PyFunceble `user_agents` update script
(`update.py`, class `UserAgentsUpdater`) together with proofs about its
normalization, caching, extraction and generation logic.

Modelling conventions:
* Python dictionaries are insertion-ordered association lists
  (`alSet` updates in place or appends, matching CPython semantics);
* Python strings are `String`; the substring test `x in s` is `strContains s x`;
* raised exceptions are `Except PyErr`;
* the nondeterministic `secrets.choice` is an explicit selection function
  `pick : List String → String` which theorems quantify over
  (`secrets.choice` may return any element of its argument);
* wall-clock times and timestamps are rationals counting seconds.
-/

namespace UserAgents

/-- Python exceptions that the modelled code can raise. -/
inductive PyErr
  | keyError
  | valueError
  | typeError
deriving DecidableEq, Repr

/-- Lookup in an insertion-ordered association list (Python `d[k]`,
`none` when the key is missing). -/
def alGet {α : Type} (l : List (String × α)) (k : String) : Option α :=
  match l with
  | [] => none
  | (k₁, v) :: t => if k₁ = k then some v else alGet t k

/-- Python `k in d`. -/
def alMem {α : Type} (l : List (String × α)) (k : String) : Bool :=
  (alGet l k).isSome

/-- Python `d[k] = v`: update in place when the key exists, else append
(CPython dictionaries preserve insertion order). -/
def alSet {α : Type} (l : List (String × α)) (k : String) (v : α) : List (String × α) :=
  match l with
  | [] => [(k, v)]
  | (k₁, v₁) :: t => if k₁ = k then (k₁, v) :: t else (k₁, v₁) :: alSet t k v

/-- Python `del d[k]` (no-op when the key is missing, which is how the
modelled code uses it). -/
def alRemove {α : Type} (l : List (String × α)) (k : String) : List (String × α) :=
  match l with
  | [] => []
  | (k₁, v₁) :: t => if k₁ = k then alRemove t k else (k₁, v₁) :: alRemove t k

/-- Build a dictionary from a list of pairs, later pairs overriding earlier
ones (Python `dict(zip(...))`). -/
def alFromPairs (ps : List (String × String)) : List (String × String) :=
  ps.foldl (fun d p => alSet d p.1 p.2) []

/-- Substring occurrence on character lists: `containsSub h n` is Python
`n in h` for the strings with those characters. -/
def containsSub (hay nee : List Char) : Bool :=
  match hay with
  | [] => nee.isEmpty
  | _ :: t => nee.isPrefixOf hay || containsSub t nee

/-- Python `sub in s` (case-sensitive substring containment). -/
def strContains (s sub : String) : Bool :=
  containsSub s.toList sub.toList

/-- Python `s.lower()` (character-wise lower-casing). -/
def strLower (s : String) : String :=
  (s.toList.map Char.toLower).asString

/-- Python `s.strip()`: drop leading and trailing whitespace. -/
def pyStrip (s : String) : String :=
  ((s.toList.dropWhile Char.isWhitespace).reverse.dropWhile Char.isWhitespace).reverse.asString

/-- Fuel-driven worker for `pyReplace`; the fuel is the haystack length,
which bounds the number of emitted characters and replacements. -/
def pyReplaceAux (pat rep : List Char) : Nat → List Char → List Char
  | 0, _ => []
  | _, [] => []
  | fuel + 1, x :: xs =>
    if pat.isPrefixOf (x :: xs) && !pat.isEmpty then
      rep ++ pyReplaceAux pat rep fuel ((x :: xs).drop pat.length)
    else
      x :: pyReplaceAux pat rep fuel xs

/-- Python `s.replace(pat, rep)`: replace every non-overlapping occurrence
from the left (the modelled code only uses non-empty patterns). -/
def pyReplace (s pat rep : String) : String :=
  (pyReplaceAux pat.toList rep.toList s.toList.length s.toList).asString

/-- Python `s.split(" ", 1)[0].lower()`: everything before the first space
character, lower-cased. -/
def firstSpaceTokenLower (s : String) : String :=
  strLower (s.toList.takeWhile (fun c => !(c = ' '))).asString

/-- Python `s.split()[0]` on a string with at least one non-whitespace
character: the first maximal run of non-whitespace characters. -/
def firstWsToken (s : String) : String :=
  ((s.toList.dropWhile Char.isWhitespace).takeWhile (fun c => !c.isWhitespace)).asString

/-- The fixed-priority substring rules of `normalize_browser`
(src/update.py lines 247-282), in source order. -/
def browser_rules : List (String × String) :=
  [("chrome", "chrome"), ("google", "chrome"), ("firefox", "firefox"),
   ("safari", "safari"), ("opera", "opera"), ("other", "other"),
   ("edge", "edge"), ("samsung", "samsung"), ("android", "android")]

/-- `UserAgentsUpdater.normalize_browser` (src/update.py lines 247-282):
fixed-priority case-insensitive substring match, falling through to the
lower-cased text before the first space. -/
def normalize_browser (browser : String) : String :=
  let lb := strLower browser
  if strContains lb "chrome" || strContains lb "google" then "chrome"
  else if strContains lb "firefox" then "firefox"
  else if strContains lb "safari" then "safari"
  else if strContains lb "opera" then "opera"
  else if strContains lb "other" then "other"
  else if strContains lb "edge" then "edge"
  else if strContains lb "samsung" then "samsung"
  else if strContains lb "android" then "android"
  else firstSpaceTokenLower browser

/-- `mac_os` marker list of `normalize_os` (src/update.py line 295). -/
def mac_os : List String := ["mac", "mac os", "macos", "macintosh"]

/-- `linux_os` marker list of `normalize_os` (src/update.py line 296). -/
def linux_os : List String := ["linux", "ubuntu", "debian", "fedora", "centos", "redhat"]

/-- `UserAgentsUpdater.normalize_os` (src/update.py lines 284-316).  The
second `ios` test is kept because the source repeats it (lines 307 and 313). -/
def normalize_os (os : String) : String :=
  let lo := strLower os
  if linux_os.any (fun x => strContains lo x) then "linux"
  else if strContains lo "windows" then "windows"
  else if mac_os.any (fun x => strContains lo x) then "macosx"
  else if strContains lo "ios" then "ios"
  else if strContains lo "android" then "android"
  else if strContains lo "ios" then "ios"
  else firstSpaceTokenLower os

/-- The fields of a cached row that `generate_user_agents` reads
(`normalized_browser`, `normalized_os`, `useragent`).  Rows written by
`fetch_user_agents` always carry these keys; access to a missing
`useragent` key on a hand-edited cache (a `KeyError` in Python) is outside
the modelled scope. -/
structure Record where
  normalized_browser : String
  normalized_os : String
  useragent : String
deriving DecidableEq, Repr

/-- The cache file's content `{"@timestamp": ..., "data": ...}` written by
`fetch_user_agents`: agent type to device group to row list, all
insertion-ordered.  The timestamp is in seconds. -/
structure Cache where
  timestamp : ℚ
  data : List (String × List (String × List Record))

/-- `UserAgentsUpdater.CACHE_EXPIRATION` (src/update.py line 85): one week
in seconds. -/
def CACHE_EXPIRATION : ℚ := 3600 * 24 * 7

/-- `UserAgentsUpdater.CACHE_FILE` (src/update.py line 89). -/
def CACHE_FILE : String := "user_agent_cache.json"

/-- `UserAgentsUpdater.OUTPUT_FILE` (src/update.py line 87). -/
def OUTPUT_FILE : String := "user_agents.json"

/-- What `DictHelper().from_json_file(..., return_dict_on_error=False)`
yields: `none` when the file is missing or holds malformed JSON, the parsed
value otherwise. -/
inductive FileContent (α : Type)
  | missing
  | malformed
  | valid (a : α)

/-- `DictHelper().from_json_file(..., return_dict_on_error=False)`. -/
def from_json_file {α : Type} : FileContent α → Option α
  | .valid a => some a
  | _ => none

/-- `UserAgentsUpdater.read_cache` (src/update.py lines 153-161):
`from_json_file(...) or {}`.  The empty dictionary is modelled as `none`,
matching how the callers test `if not cache`. -/
def read_cache (f : FileContent Cache) : Option Cache :=
  from_json_file f

/-- `UserAgentsUpdater.authorized` (src/update.py lines 137-151): run when
the cache is empty, or when strictly more than `CACHE_EXPIRATION` seconds
elapsed since its timestamp.  `now` stands for `datetime.utcnow()`. -/
def authorized (cache : Option Cache) (now : ℚ) : Bool :=
  match cache with
  | none => true
  | some c => decide (now - c.timestamp > CACHE_EXPIRATION)

/-- `UserAgentsUpdater.execute_if_authorized` (src/update.py lines 99-116):
run the wrapped function only when authorized, otherwise return the
caller-supplied default. -/
def execute_if_authorized {α : Type} (default : α) (auth : Bool) (func : Unit → α) : α :=
  if auth then func () else default

/-- An HTTP response as seen by `fetch_user_agents`. -/
structure HttpResponse where
  status_code : Nat
  text : String
deriving DecidableEq, Repr

/-- The response handling of `fetch_user_agents` in non-learning mode
(src/update.py lines 169-171): `response.text` is used unconditionally; the
status code is never inspected and `requests.get` does not raise on
non-success statuses. -/
def fetch_response_content (resp : HttpResponse) : String :=
  resp.text

/-- Modelled from the spec (section 4.1, Fetcher contract): raw content on
a success status, an absent value on a recognized not-found response, a
fatal error on any other status.  This comparator follows the spec's words
and is only used to contrast them with `fetch_response_content`. -/
inductive SpecFetchOutcome
  | content (s : String)
  | notFound
  | fatal
deriving DecidableEq, Repr

/-- Modelled from the spec (section 4.1 and section 7 taxonomy): the
claimed status dispatch of the fetcher. -/
def specFetchOutcome (resp : HttpResponse) : SpecFetchOutcome :=
  if resp.status_code = 200 then .content resp.text
  else if resp.status_code = 404 then .notFound
  else .fatal

/-- Split at the first occurrence of a character: Python `s.split(c, 1)`
returns one piece (`none` here) when `c` is absent, otherwise the text
before and after the first occurrence. -/
def splitFirstChar (c : Char) : List Char → Option (List Char × List Char)
  | [] => none
  | x :: xs =>
    if x = c then some ([], xs)
    else (splitFirstChar c xs).map (fun p => (x :: p.1, p.2))

/-- src/update.py lines 226-227: truncate a `device` cell carrying a
`more info` marker to its first whitespace-delimited token. -/
def truncate_device (ds : List (String × String)) : List (String × String) :=
  match alGet ds "device" with
  | some d => if strContains d "more info" then alSet ds "device" (firstWsToken d) else ds
  | none => ds

/-- The tail of the row processing (src/update.py lines 226-232): truncate
a `device` cell carrying a `more info` marker, then read the `browser` and
`os` fields (`KeyError` when absent) to attach the normalized fields. -/
def attach_normalized (ds : List (String × String)) : Except PyErr (List (String × String)) :=
  let ds₁ := truncate_device ds
  match alGet ds₁ "browser" with
  | none => .error .keyError
  | some b =>
    match alGet ds₁ "os" with
    | none => .error .keyError
    | some o =>
      .ok (alSet (alSet ds₁ "normalized_browser" (normalize_browser b))
        "normalized_os" (normalize_os o))

/-- Processing of one table body row by `fetch_user_agents`
(src/update.py lines 214-234): zip headers with stripped cell texts, split
a combined `os + browser` cell on its first comma (a comma-less combined
cell raises `ValueError`, since one piece cannot be unpacked into two
names), then `attach_normalized`. -/
def process_row (headers cells : List String) : Except PyErr (List (String × String)) :=
  let ds := alFromPairs (headers.zip (cells.map pyStrip))
  match alGet ds "os + browser" with
  | none => attach_normalized ds
  | some v =>
    match splitFirstChar ',' v.toList with
    | none => .error .valueError
    | some p =>
      attach_normalized (alRemove (alSet (alSet ds "browser" (pyStrip p.1.asString))
        "os" (pyStrip p.2.asString)) "os + browser")

/-- The claimed row precondition, modelled from the claim's words: the row
yields either a combined `os + browser` cell containing at least one comma
or explicit `browser` and `os` columns.  Used only to contrast the claim
with `process_row`. -/
def claimed_row_precondition (headers cells : List String) : Bool :=
  let ds := alFromPairs (headers.zip (cells.map pyStrip))
  (match alGet ds "os + browser" with
   | some v => strContains v ","
   | none => false) ||
  (alMem ds "browser" && alMem ds "os")

/-- The exact domain of `process_row`: when a combined `os + browser` cell
is present it must contain a comma (explicit columns do not help), and when
it is absent both a `browser` and an `os` column must be present. -/
def row_extraction_ok (headers cells : List String) : Bool :=
  let ds := alFromPairs (headers.zip (cells.map pyStrip))
  match alGet ds "os + browser" with
  | some v => strContains v ","
  | none => alMem ds "browser" && alMem ds "os"

/-- One `div.container` section of the scraped document, as
`fetch_user_agents` sees it: the heading identifier (when a `h2` with an
`id` is present), the header row texts and the body rows' cell texts. -/
structure TableSection where
  category_id : Option String
  headers : List String
  rows : List (List String)

/-- Row projection used when `generate_user_agents` consumes a cache
produced by `fetch_user_agents`; the three keys are always set by
`process_row`. -/
def rowToRecord (ds : List (String × String)) : Record :=
  ⟨(alGet ds "normalized_browser").getD "", (alGet ds "normalized_os").getD "",
   (alGet ds "useragent").getD ""⟩

/-- The per-section work of the `fetch_user_agents` loop (src/update.py
lines 181-234): skip sections without a qualifying heading identifier or
with an all-empty header row, split the normalized identifier into agent
type and device group (`ValueError` when no dash remains), then process
every body row. -/
def processSection (acc : List (String × List (String × List Record)))
    (s : TableSection) : Except PyErr (List (String × List (String × List Record))) :=
  match s.category_id with
  | none => .ok acc
  | some cid =>
    if cid = "" then .ok acc
    else if !strContains cid "-useragent" then .ok acc
    else
      let nid := pyReplace (pyReplace cid "-useragents" "") "most-" ""
      match splitFirstChar '-' nid.toList with
      | none => .error .valueError
      | some p =>
        let agent_type := p.1.asString
        let device_group := p.2.asString
        if s.headers.all (fun h => h = "") then .ok acc
        else
          match s.rows.mapM (fun cells => process_row s.headers cells) with
          | .error e => .error e
          | .ok rows =>
            let groups := (alGet acc agent_type).getD []
            let existing := (alGet groups device_group).getD []
            .ok (alSet acc agent_type
              (alSet groups device_group (existing ++ rows.map rowToRecord)))

/-- One browser entry of the `@modern` table.  `oss` maps an OS name to
its candidate list.  `win10Alias = true` models the Python statement
`normalized_data["@modern"][b]["win10"] = normalized_data["@modern"][b]["windows"]`,
which makes the `win10` key reference the same list object as `windows`:
while the alias holds, reads and appends through `win10` reach the
`windows` list. -/
structure ModEntry where
  oss : List (String × List String)
  win10Alias : Bool
deriving DecidableEq, Repr

/-- Python `os in modern[b]` (the alias makes `win10` present). -/
def modMemOs (e : ModEntry) (o : String) : Bool :=
  (o == "win10" && e.win10Alias) || alMem e.oss o

/-- Python `modern[b][os]` read, resolving the `win10` alias. -/
def modReadOs (e : ModEntry) (o : String) : Option (List String) :=
  if o == "win10" && e.win10Alias then alGet e.oss "windows" else alGet e.oss o

/-- Python `modern[b][os] = v`: rebinding a key to a fresh list object;
rebinding `win10` itself drops the alias. -/
def modWriteOs (e : ModEntry) (o : String) (v : List String) : ModEntry :=
  if o == "win10" then { oss := alSet e.oss "win10" v, win10Alias := false }
  else { e with oss := alSet e.oss o v }

/-- Python `modern[b][os].append(u)`: `none` models the `KeyError` raised
when the key is absent; an append through an aliased `win10` mutates the
`windows` list. -/
def modAppendOs (e : ModEntry) (o : String) (u : String) : Option ModEntry :=
  let target := if o == "win10" && e.win10Alias then "windows" else o
  match alGet e.oss target with
  | none => none
  | some l => some { e with oss := alSet e.oss target (l ++ [u]) }

/-- Python `modern[b]["win10"] = modern[b]["windows"]` (src/update.py
lines 372-378): the `win10` key now references the `windows` list. -/
def modAliasWin10 (e : ModEntry) : ModEntry :=
  { oss := alRemove e.oss "win10", win10Alias := true }

/-- The mutable state of `generate_user_agents`:
* `modern` is `normalized_data["@modern"]`;
* `legacy` holds the top-level browser entries (each mapping an OS name to
  the selected user agent, `none` being Python's `None`);
* `ieAliased = true` models `normalized_data["ie"] = normalized_data["edge"]`
  (src/update.py lines 380-383), which makes the top-level `ie` key
  reference the same dictionary object as `edge`: while it holds, reads and
  writes through the top-level `ie` key reach the `edge` entry. -/
structure GenState where
  modern : List (String × ModEntry)
  legacy : List (String × List (String × Option String))
  ieAliased : Bool
deriving DecidableEq, Repr

/-- The key through which top-level dictionary accesses for browser `b`
actually go (the `ie` alias redirects them to `edge`). -/
def writeKey (st : GenState) (b : String) : String :=
  if b == "ie" && st.ieAliased then "edge" else b

/-- The top-level dictionary entry reached through key `k` (empty when the
key is missing; the modelled code only reads entries that exist). -/
def legacyEntry (st : GenState) (k : String) : List (String × Option String) :=
  (alGet st.legacy k).getD []

/-- src/update.py lines 333-341: when the browser key is missing from the
top level or from `@modern`, rebind both to fresh empty dictionaries.
Rebinding the top-level `ie` key drops the `ie` alias. -/
def stepInit (st : GenState) (b : String) : GenState :=
  let topHasB := (b == "@modern") || alMem st.legacy b || (b == "ie" && st.ieAliased)
  if !topHasB || !alMem st.modern b then
    { modern := alSet st.modern b ⟨[], false⟩
      legacy := alSet st.legacy b []
      ieAliased := if b == "ie" then false else st.ieAliased }
  else st

/-- src/update.py lines 343-352: when the OS key is missing from the
top-level browser entry, set it to `None` there and to a fresh empty list
in `@modern`. -/
def stepOsInit (st : GenState) (b o : String) : GenState :=
  let lk := writeKey st b
  if alMem (legacyEntry st lk) o then st
  else
    { st with
      legacy := alSet st.legacy lk (alSet (legacyEntry st lk) o none)
      modern := alSet st.modern b
        (modWriteOs ((alGet st.modern b).getD ⟨[], false⟩) o []) }

/-- src/update.py lines 354-356: append the user agent to the `@modern`
candidate list (`KeyError` when the key is unexpectedly absent). -/
def stepAppend (st : GenState) (b o u : String) : Option GenState :=
  match alGet st.modern b with
  | none => none
  | some e =>
    match modAppendOs e o u with
    | none => none
    | some e₁ => some { st with modern := alSet st.modern b e₁ }

/-- src/update.py lines 358-364: select one candidate from the `@modern`
list into the top-level entry; `pick` stands for `secrets.choice`. -/
def stepChoice (pick : List String → String) (st : GenState) (b o : String) : GenState :=
  let lk := writeKey st b
  let chosen := pick ((modReadOs ((alGet st.modern b).getD ⟨[], false⟩) o).getD [])
  { st with legacy := alSet st.legacy lk (alSet (legacyEntry st lk) o (some chosen)) }

/-- src/update.py lines 366-378: after a `windows` record, copy the
selected value into the top-level `win10` slot and alias the `@modern`
`win10` key to the `windows` list. -/
def stepWin10 (st : GenState) (b o : String) : GenState :=
  if o == "windows" then
    let lk := writeKey st b
    let cur := (alGet (legacyEntry st lk) "windows").getD none
    let st₁ := { st with legacy := alSet st.legacy lk (alSet (legacyEntry st lk) "win10" cur) }
    match alGet st₁.modern b with
    | none => st₁
    | some e => { st₁ with modern := alSet st₁.modern b (modAliasWin10 e) }
  else st

/-- src/update.py lines 380-383: after an `edge` record, rebind the
top-level `ie` key to the `edge` dictionary object. -/
def stepEdge (st : GenState) (b : String) : GenState :=
  if b == "edge" then
    { st with legacy := alRemove st.legacy "ie", ieAliased := true }
  else st

/-- One iteration of the record loop of `generate_user_agents`
(src/update.py lines 332-383). -/
def step (pick : List String → String) (st : GenState) (r : Record) : Except PyErr GenState :=
  let st₁ := stepOsInit (stepInit st r.normalized_browser) r.normalized_browser r.normalized_os
  match stepAppend st₁ r.normalized_browser r.normalized_os r.useragent with
  | none => .error .keyError
  | some st₂ =>
    .ok (stepEdge (stepWin10 (stepChoice pick st₂ r.normalized_browser r.normalized_os)
      r.normalized_browser r.normalized_os) r.normalized_browser)

/-- The `necessary` OS keys (src/update.py line 385). -/
def necessary_os : List String := ["linux", "macosx", "windows", "win10"]

/-- The body of the `@modern` backfill loop (src/update.py lines 388-390):
add the OS key as an empty list when missing (the aliased `win10` key
counts as present). -/
def bfModStep (e : ModEntry) (o : String) : ModEntry :=
  if modMemOs e o then e else { e with oss := alSet e.oss o [] }

/-- src/update.py lines 387-390: add every missing necessary OS key of an
`@modern` browser entry as an empty list. -/
def backfillModEntry (e : ModEntry) : ModEntry :=
  necessary_os.foldl bfModStep e

/-- The body of the top-level backfill loop (src/update.py lines 396-398):
add the OS key as `None` when missing. -/
def bfLegStep (e : List (String × Option String)) (o : String) :
    List (String × Option String) :=
  if alMem e o then e else alSet e o none

/-- src/update.py lines 392-398: add every missing necessary OS key of a
top-level browser entry as `None`. -/
def backfillLegacyEntry (e : List (String × Option String)) :
    List (String × Option String) :=
  necessary_os.foldl bfLegStep e

/-- The two backfill loops of `generate_user_agents` (src/update.py lines
385-398).  The top-level loop visits an aliased `ie` key through the same
dictionary object as `edge`, which is idempotent, so each entry is
backfilled once. -/
def backfill (st : GenState) : GenState :=
  { modern := st.modern.map (fun p => (p.1, backfillModEntry p.2))
    legacy := st.legacy.map (fun p => (p.1, backfillLegacyEntry p.2))
    ieAliased := st.ieAliased }

/-- The records of a cache in iteration order (src/update.py lines
330-332: `cache["data"].values()`, then device groups, then rows). -/
def allRecords (c : Cache) : List Record :=
  c.data.foldl (fun acc p => p.2.foldl (fun acc q => acc ++ q.2) acc) []

/-- The result of `generate_user_agents`: the bare empty dictionary
returned on an empty cache (src/update.py lines 325-326), or the populated
state. -/
inductive GenResult
  | empty
  | table (st : GenState)
deriving DecidableEq, Repr

/-- `normalized_data = {"@modern": {}}` (src/update.py line 328). -/
def initGenState : GenState := ⟨[], [], false⟩

/-- `UserAgentsUpdater.generate_user_agents` (src/update.py lines
318-402), up to the file write.  Faithful for caches whose records carry
ordinary browser names: a record whose normalized browser is the reserved
key `"@modern"` would make the Python code merge the `@modern` table with
a browser dictionary, which this state type does not represent; theorems
therefore carry a `noAtModernBrowser` hypothesis. -/
def generate_user_agents (pick : List String → String) (cache : Option Cache) :
    Except PyErr GenResult :=
  match cache with
  | none => .ok .empty
  | some c =>
    match (allRecords c).foldlM (step pick) initGenState with
    | .error e => .error e
    | .ok st => .ok (.table (backfill st))

/-- Python `k in normalized_data` on the final state (the `ie` alias makes
`ie` present). -/
def legacyHasKey (st : GenState) (k : String) : Bool :=
  alMem st.legacy k || (k == "ie" && st.ieAliased)

/-- The final top-level entry reached through key `k`, resolving the `ie`
alias. -/
def legacyEntryOf (st : GenState) (k : String) :
    Option (List (String × Option String)) :=
  if k == "ie" && st.ieAliased then alGet st.legacy "edge" else alGet st.legacy k

/-- No record of the cache carries the reserved browser name `@modern`
(see `generate_user_agents`). -/
def noAtModernBrowser (c : Cache) : Bool :=
  (allRecords c).all (fun r => r.normalized_browser != "@modern")

/-- No record of the cache carries the normalized OS name `win10`. -/
def noWin10Os (c : Cache) : Bool :=
  (allRecords c).all (fun r => r.normalized_os != "win10")

/-- No record of the cache carries the normalized browser name `ie`. -/
def noIeBrowser (c : Cache) : Bool :=
  (allRecords c).all (fun r => r.normalized_browser != "ie")

/-- Projection of a run result onto its table (for stating concrete
evaluations). -/
def tableOf (r : Except PyErr GenResult) : GenState :=
  match r with
  | .ok (.table st) => st
  | _ => initGenState

/-- A concrete selection function: `secrets.choice` may return the first
element. -/
def pickHead (l : List String) : String := l.headD ""

/-- A concrete selection function: `secrets.choice` may return the last
element. -/
def pickLast (l : List String) : String := l.getLastD ""

/-- A run with a log of file writes: the computation either raises or
returns, and appends the name of every file it overwrites. -/
def FileM (α : Type) : Type := List String → Except PyErr α × List String

/-- Sequencing for `FileM`: a raised exception propagates and no further
writes happen. -/
def fmBind {α β : Type} (x : FileM α) (f : α → FileM β) : FileM β := fun log =>
  match x log with
  | (.error e, log₁) => (.error e, log₁)
  | (.ok a, log₁) => f a log₁

/-- `DictHelper(...).to_json_file(name, indent=2)`: overwrite the file. -/
def to_json_file (name : String) : FileM Unit := fun log => (.ok (), log ++ [name])

/-- The body of `fetch_user_agents` after the response is parsed
(src/update.py lines 177-245): walk the sections, and only after the whole
loop succeeded write the cache file (line 243).  `ts` stands for
`datetime.utcnow().isoformat()`. -/
def fetch_user_agents_run (ts : ℚ) (sections : List TableSection) : FileM Cache :=
  fun log =>
    match sections.foldlM processSection [] with
    | .error e => (.error e, log)
    | .ok data => (.ok ⟨ts, data⟩, log ++ [CACHE_FILE])

/-- `generate_user_agents` including its output write (src/update.py line
400): the write happens only at the very end of normalization; the early
return on an empty cache (line 326) writes nothing, and a raised exception
writes nothing. -/
def generate_user_agents_run (pick : List String → String) (cache : Option Cache) :
    FileM GenResult := fun log =>
  match generate_user_agents pick cache with
  | .error e => (.error e, log)
  | .ok .empty => (.ok .empty, log)
  | .ok (.table st) => (.ok (.table st), log ++ [OUTPUT_FILE])

/-- The authorized path of the script's main run (src/update.py lines
419-421): fetch, then generate from the cache the fetch produced.  An
exception raised while fetching aborts the process before `generate` runs. -/
def run_update (ts : ℚ) (pick : List String → String) (sections : List TableSection) :
    FileM GenResult :=
  fmBind (fetch_user_agents_run ts sections)
    (fun cache => generate_user_agents_run pick (some cache))

/-- A JSON value as read back from the output file. -/
inductive Jsonish
  | null
  | str (s : String)
  | arr (elems : List String)
  | obj (fields : List (String × Jsonish))

/-- Python subscripting `j[k]` with a string key: `KeyError` when the key
is missing from a dictionary, `TypeError` when the value is not a
dictionary (including `None[...]`). -/
def jsIndex (j : Jsonish) (k : String) : Except PyErr Jsonish :=
  match j with
  | .obj fields =>
    match alGet fields k with
    | some v => .ok v
    | none => .error .keyError
  | _ => .error .typeError

/-- The fallback literal of `default_user_agent` (src/update.py lines
132-135). -/
def DEFAULT_UA_LITERAL : String :=
  "Mozilla/5.0 (X11; Linux x86_64) AppleWebKit/537.36 (KHTML, like Gecko) Chrome/107.0.0.0 Safari/537.36"

/-- `UserAgentsUpdater.default_user_agent` (src/update.py lines 118-135):
look up `["@modern"]["chrome"]["linux"]` in the parsed output file; only a
`TypeError` (in particular subscripting the `None` that an unusable file
parses to) is caught and replaced by the fixed literal. -/
def default_user_agent (f : FileContent Jsonish) : Except PyErr Jsonish :=
  let attempt : Except PyErr Jsonish :=
    match from_json_file f with
    | none => .error .typeError
    | some d =>
      match jsIndex d "@modern" with
      | .error e => .error e
      | .ok a =>
        match jsIndex a "chrome" with
        | .error e => .error e
        | .ok b => jsIndex b "linux"
  match attempt with
  | .error .typeError => .ok (.str DEFAULT_UA_LITERAL)
  | .error e => .error e
  | .ok v => .ok v

/-- Modelled from the spec's words in the claim: the first
whitespace-delimited token of the input, lower-cased.  Used only to
contrast the claim with the fallback of `normalize_browser`, which splits
on the space character alone. -/
def firstWhitespaceToken (s : String) : String :=
  strLower ((s.toList.dropWhile Char.isWhitespace).takeWhile (fun c => !c.isWhitespace)).asString

/-! ## Association-list lemmas -/

theorem alGet_alSet {α : Type} (l : List (String × α)) (k : String) (v : α) (j : String) :
    alGet (alSet l k v) j = if k = j then some v else alGet l j := by
  induction l with
  | nil => simp [alSet, alGet]
  | cons p t ih =>
    obtain ⟨k₁, v₁⟩ := p
    by_cases h1 : k₁ = k
    · subst h1
      by_cases h2 : k₁ = j
      · subst h2; simp [alSet, alGet]
      · simp [alSet, alGet, h2]
    · by_cases h2 : k₁ = j
      · subst h2
        have h3 : ¬k = k₁ := fun hh => h1 hh.symm
        simp [alSet, alGet, h1, h3]
      · simp [alSet, alGet, h1, h2, ih]

theorem alGet_alRemove {α : Type} (l : List (String × α)) (k j : String) :
    alGet (alRemove l k) j = if k = j then none else alGet l j := by
  induction l with
  | nil => simp [alRemove, alGet]
  | cons p t ih =>
    obtain ⟨k₁, v₁⟩ := p
    by_cases h1 : k₁ = k
    · subst h1
      by_cases h2 : k₁ = j
      · subst h2; simp [alRemove, ih]
      · simp [alRemove, alGet, ih, h2]
    · by_cases h2 : k₁ = j
      · subst h2
        have h3 : ¬k = k₁ := fun hh => h1 hh.symm
        simp [alRemove, alGet, h1, h3]
      · simp [alRemove, alGet, h1, h2, ih]

theorem alGet_map {α β : Type} (f : α → β) (l : List (String × α)) (j : String) :
    alGet (l.map (fun p => (p.1, f p.2))) j = (alGet l j).map f := by
  induction l with
  | nil => simp [alGet]
  | cons p t ih =>
    obtain ⟨k₁, v₁⟩ := p
    by_cases h : k₁ = j
    · subst h; simp [alGet]
    · simp only [List.map, alGet, if_neg h, ih]

theorem alMem_alSet {α : Type} (l : List (String × α)) (k : String) (v : α) (j : String) :
    alMem (alSet l k v) j = if k = j then true else alMem l j := by
  simp only [alMem, alGet_alSet]
  by_cases h : k = j <;> simp [h]

theorem alMem_of_alGet {α : Type} {l : List (String × α)} {k : String} {v : α}
    (h : alGet l k = some v) : alMem l k = true := by
  simp [alMem, h]

/-! ## Claims about fetching, normalization, the gate and the fallbacks -/

/-- C1 counterexample: `fetch_user_agents` does not implement the claimed
status dispatch.  On a 500 response the code proceeds with the body where
the claim demands a fatal error, and on a 404 response it proceeds with
the body where the claim demands an absent value. -/
theorem c1_fetch_status_counterexample :
    fetch_response_content ⟨500, "body"⟩ = "body" ∧
    specFetchOutcome ⟨500, "body"⟩ = .fatal ∧
    fetch_response_content ⟨404, "nf"⟩ = "nf" ∧
    specFetchOutcome ⟨404, "nf"⟩ = .notFound :=
  ⟨rfl, rfl, rfl, rfl⟩

/-- C1 (amended): in non-learning mode `fetch_user_agents` uses the
response body unconditionally, whatever the HTTP status; no status is
treated as not-found or as a fatal error, and `None` is returned only when
the staleness gate blocks the run. -/
theorem c1_fetch_uses_body_unconditionally (resp : HttpResponse) (auth : Bool) :
    execute_if_authorized none auth (fun _ => some (fetch_response_content resp)) =
      (if auth then some resp.text else none) := by
  cases auth <;> rfl

/-- C2: every OS input containing a Linux distro marker
(case-insensitively) normalizes to `linux`, and an input containing
`windows` normalizes to `windows` whenever no Linux marker is fully
contained in it — the Linux check runs first and takes precedence. -/
theorem c2_normalize_os_linux_windows (s : String) :
    ((∃ m ∈ linux_os, strContains (strLower s) m = true) → normalize_os s = "linux") ∧
    (strContains (strLower s) "windows" = true →
      (∀ m ∈ linux_os, strContains (strLower s) m = false) → normalize_os s = "windows") := by
  constructor
  · rintro ⟨m, hm, hc⟩
    have hany : linux_os.any (fun x => strContains (strLower s) x) = true :=
      List.any_eq_true.mpr ⟨m, hm, hc⟩
    simp [normalize_os, hany]
  · intro hw hnone
    have hany : linux_os.any (fun x => strContains (strLower s) x) = false := by
      rw [Bool.eq_false_iff]
      intro hc
      obtain ⟨m, hm, hcm⟩ := List.any_eq_true.mp hc
      rw [hnone m hm] at hcm
      exact Bool.false_ne_true hcm
    simp [normalize_os, hany, hw]

/-- C2 witness: concrete Linux and Windows inputs. -/
theorem c2_normalize_os_witness :
    normalize_os "Ubuntu 20.04" = "linux" ∧ normalize_os "Windows 10" = "windows" :=
  ⟨(c2_normalize_os_linux_windows "Ubuntu 20.04").1 ⟨"ubuntu", by decide, by decide⟩,
   (c2_normalize_os_linux_windows "Windows 10").2 (by decide) (by decide)⟩

/-- C6: the staleness gate authorizes exactly when the cache is absent or
strictly more than the fixed one-week `CACHE_EXPIRATION` elapsed since its
timestamp; when it blocks, the wrapped stage is not invoked — whatever the
wrapped function is, the caller-supplied default is returned. -/
theorem c6_staleness_gate {α : Type} (cache : Option Cache) (now : ℚ)
    (d : α) (f : Unit → α) :
    (authorized cache now = true ↔
      (cache = none ∨ ∃ c, cache = some c ∧ now - c.timestamp > CACHE_EXPIRATION)) ∧
    (authorized cache now = false →
      execute_if_authorized d (authorized cache now) f = d) := by
  constructor
  · cases cache with
    | none => simp [authorized]
    | some c => simp [authorized]
  · intro h
    simp [execute_if_authorized, h]

/-- C6 witness: a one-second-old cache blocks (the wrapped function is not
consulted and the default comes back) and an absent cache authorizes. -/
theorem c6_staleness_gate_witness :
    execute_if_authorized (42 : Nat) (authorized (some ⟨0, []⟩) 1) (fun _ => 7) = 42 ∧
    authorized none 0 = true :=
  ⟨(c6_staleness_gate (some ⟨0, []⟩) 1 42 (fun _ => 7)).2
      (by norm_num [authorized, CACHE_EXPIRATION]),
   (c6_staleness_gate (α := Nat) none 0 0 (fun _ => 0)).1.mpr (Or.inl rfl)⟩

/-- C7 counterexample: on an input starting with a space (and matching no
rule), `normalize_browser` returns the text before the first space — here
the empty string — and not the first whitespace-delimited token `"foo"`
that the claim describes. -/
theorem c7_first_token_counterexample :
    normalize_browser " Foo" = "" ∧
    firstWhitespaceToken " Foo" = "foo" ∧
    browser_rules.all (fun r => !strContains (strLower " Foo") r.1) = true ∧
    normalize_browser " Foo" ≠ firstWhitespaceToken " Foo" := by
  decide

/-- C7 (amended): every browser input containing `chrome` or `google`
(case-insensitively) normalizes to `chrome`, and an input matching none of
the listed substring rules reduces to the lower-cased text before the
first space character (Python `split(" ", 1)[0]`), not before arbitrary
whitespace. -/
theorem c7_normalize_browser_rules (s : String) :
    ((strContains (strLower s) "chrome" = true ∨ strContains (strLower s) "google" = true) →
      normalize_browser s = "chrome") ∧
    (browser_rules.all (fun r => !strContains (strLower s) r.1) = true →
      normalize_browser s = firstSpaceTokenLower s) := by
  constructor
  · intro h
    rcases h with h | h <;> simp [normalize_browser, h]
  · intro h
    have hh := List.all_eq_true.mp h
    have m₁ : strContains (strLower s) "chrome" = false := by
      simpa using hh ("chrome", "chrome") (by simp [browser_rules])
    have m₂ : strContains (strLower s) "google" = false := by
      simpa using hh ("google", "chrome") (by simp [browser_rules])
    have m₃ : strContains (strLower s) "firefox" = false := by
      simpa using hh ("firefox", "firefox") (by simp [browser_rules])
    have m₄ : strContains (strLower s) "safari" = false := by
      simpa using hh ("safari", "safari") (by simp [browser_rules])
    have m₅ : strContains (strLower s) "opera" = false := by
      simpa using hh ("opera", "opera") (by simp [browser_rules])
    have m₆ : strContains (strLower s) "other" = false := by
      simpa using hh ("other", "other") (by simp [browser_rules])
    have m₇ : strContains (strLower s) "edge" = false := by
      simpa using hh ("edge", "edge") (by simp [browser_rules])
    have m₈ : strContains (strLower s) "samsung" = false := by
      simpa using hh ("samsung", "samsung") (by simp [browser_rules])
    have m₉ : strContains (strLower s) "android" = false := by
      simpa using hh ("android", "android") (by simp [browser_rules])
    simp [normalize_browser, m₁, m₂, m₃, m₄, m₅, m₆, m₇, m₈, m₉]

/-- C7 witness: a Google input normalizes to `chrome`, and a rule-free
input reduces to its lower-cased first space-delimited piece. -/
theorem c7_normalize_browser_witness :
    normalize_browser "Google Chrome" = "chrome" ∧
    normalize_browser "Lynx 2.8" = firstSpaceTokenLower "Lynx 2.8" ∧
    firstSpaceTokenLower "Lynx 2.8" = "lynx" :=
  ⟨(c7_normalize_browser_rules "Google Chrome").1 (Or.inr (by decide)),
   (c7_normalize_browser_rules "Lynx 2.8").2 (by decide), by decide⟩

/-- C9: a missing or malformed cache or output file is never fatal —
`read_cache` substitutes the empty mapping, `generate_user_agents` returns
the bare empty mapping on an empty cache, and `default_user_agent` falls
back to the fixed literal when the output file is unusable. -/
theorem c9_missing_files_never_fatal :
    (read_cache .missing = none ∧ read_cache .malformed = none) ∧
    (∀ pick, generate_user_agents pick none = .ok .empty) ∧
    (default_user_agent .missing = .ok (.str DEFAULT_UA_LITERAL) ∧
      default_user_agent .malformed = .ok (.str DEFAULT_UA_LITERAL)) :=
  ⟨⟨rfl, rfl⟩, fun _ => rfl, rfl, rfl⟩

/-! ## Row extraction (C10) and write ordering (C8) -/

theorem containsSub_single (c : Char) (l : List Char) :
    containsSub l [c] = (splitFirstChar c l).isSome := by
  induction l with
  | nil => rfl
  | cons x t ih =>
    by_cases h : x = c
    · subst h
      simp [containsSub, splitFirstChar, List.isPrefixOf]
    · have h₁ : (c == x) = false := by
        simp [beq_eq_false_iff_ne, Ne.symm h]
      simp [containsSub, splitFirstChar, List.isPrefixOf, h, h₁, ih]

theorem alGet_truncate_device (ds : List (String × String)) (k : String)
    (hk : ¬"device" = k) : alGet (truncate_device ds) k = alGet ds k := by
  unfold truncate_device
  cases alGet ds "device" with
  | none => rfl
  | some d =>
    by_cases hm : strContains d "more info" = true
    · simp [hm, alGet_alSet, hk]
    · simp [hm]

theorem attach_normalized_ok_iff (ds : List (String × String)) :
    (∃ r, attach_normalized ds = .ok r) ↔ (alMem ds "browser" && alMem ds "os") = true := by
  have hb : alGet (truncate_device ds) "browser" = alGet ds "browser" :=
    alGet_truncate_device ds "browser" (by simp)
  have ho : alGet (truncate_device ds) "os" = alGet ds "os" :=
    alGet_truncate_device ds "os" (by simp)
  simp only [attach_normalized]
  cases hgb : alGet (truncate_device ds) "browser" with
  | none =>
    rw [hgb] at hb
    simp [hgb, alMem, ← hb]
  | some b =>
    rw [hgb] at hb
    cases hgo : alGet (truncate_device ds) "os" with
    | none =>
      rw [hgo] at ho
      simp [hgb, hgo, alMem, ← hb, ← ho]
    | some o =>
      rw [hgo] at ho
      simp [hgb, hgo, alMem, ← hb, ← ho]

/-- C10 counterexample: a row whose combined `os + browser` cell has no
comma raises `ValueError` even though explicit `browser` and `os` columns
are present, so the claimed precondition (which this row satisfies) does
not make extraction total. -/
theorem c10_row_counterexample :
    process_row ["os + browser", "browser", "os"] ["nocomma", "Chrome", "Windows"] =
      .error .valueError ∧
    claimed_row_precondition ["os + browser", "browser", "os"]
      ["nocomma", "Chrome", "Windows"] = true := by
  constructor
  · rfl
  · rfl

/-- C10 (amended): row processing succeeds exactly when either a combined
`os + browser` cell is present and contains a comma, or no combined cell
is present and both explicit `browser` and `os` columns are; any other row
raises an uncaught exception instead of being skipped. -/
theorem c10_row_extraction_domain (headers cells : List String) :
    (∃ r, process_row headers cells = .ok r) ↔
      row_extraction_ok headers cells = true := by
  simp only [process_row, row_extraction_ok]
  cases hc : alGet (alFromPairs (headers.zip (cells.map pyStrip))) "os + browser" with
  | none => exact attach_normalized_ok_iff _
  | some v =>
    simp only []
    have hcs : strContains v "," = (splitFirstChar ',' v.toList).isSome :=
      containsSub_single ',' v.toList
    rw [hcs]
    cases hsp : splitFirstChar ',' v.toList with
    | none => simp
    | some p =>
      simp only [Option.isSome_some, iff_true]
      rw [attach_normalized_ok_iff]
      simp [alMem, alGet_alRemove, alGet_alSet]

/-- C10 witness: the amended domain predicate on concrete accepted and
rejected rows. -/
theorem c10_row_extraction_witness :
    (∃ r, process_row ["os + browser", "useragent"]
      ["Chrome 107, Windows 10", "Mozilla/5.0"] = .ok r) ∧
    ¬(∃ r, process_row ["os + browser", "useragent"]
      ["Chrome 107 Windows 10", "Mozilla/5.0"] = .ok r) := by
  constructor
  · exact (c10_row_extraction_domain _ _).mpr (by decide)
  · intro h
    have := (c10_row_extraction_domain ["os + browser", "useragent"]
      ["Chrome 107 Windows 10", "Mozilla/5.0"]).mp h
    revert this
    decide

/-- C8: a fatal error while fetching or extracting leaves both files
untouched (no write at all happens), because the cache write runs only
after the whole extraction loop succeeded; and a fatal error inside
`generate_user_agents` leaves the output file untouched, because its write
runs only at the end of normalization. -/
theorem c8_no_writes_on_error (ts : ℚ) (pick : List String → String)
    (sections : List TableSection) (log : List String) :
    ((∃ e, sections.foldlM processSection
        ([] : List (String × List (String × List Record))) = .error e) →
      ∃ e, run_update ts pick sections log = (.error e, log)) ∧
    (∀ cache : Option Cache, (∃ e, generate_user_agents pick cache = .error e) →
      ∃ e, generate_user_agents_run pick cache log = (.error e, log)) := by
  constructor
  · rintro ⟨e, he⟩
    refine ⟨e, ?_⟩
    simp [run_update, fmBind, fetch_user_agents_run, he]
  · rintro cache ⟨e, he⟩
    refine ⟨e, ?_⟩
    simp [generate_user_agents_run, he]

/-- A fixture whose single row has a comma-less combined cell, so that the
extraction loop raises. -/
def badSections : List TableSection :=
  [⟨some "desktop-xyz-useragents", ["os + browser", "useragent"],
    [["no comma here", "UA"]]⟩]

/-- A cache on which `generate_user_agents` raises a `KeyError`: the `ie`
record after the `edge` alias writes through `edge`'s top-level entry, but
the `@modern` `ie` entry lacks the `linux` key when the append runs. -/
def keyErrorCache : Cache :=
  ⟨0, [("w", [("d", [⟨"ie", "macosx", "1"⟩, ⟨"edge", "linux", "2"⟩,
    ⟨"ie", "linux", "3"⟩])])]⟩

/-- C8 witness: on the failing fixture the whole run writes nothing, and on
the `KeyError` cache the generation stage writes nothing. -/
theorem c8_no_writes_on_error_witness :
    (∃ e, run_update 0 pickHead badSections [] = (.error e, [])) ∧
    (∃ e, generate_user_agents_run pickHead (some keyErrorCache) [] = (.error e, [])) :=
  ⟨(c8_no_writes_on_error 0 pickHead badSections []).1 ⟨.valueError, rfl⟩,
   (c8_no_writes_on_error 0 pickHead [] []).2 (some keyErrorCache) ⟨.keyError, rfl⟩⟩

/-! ## Frame lemmas for the record-loop phases -/

theorem alSet_alSet_same {α : Type} (l : List (String × α)) (k : String) (v₁ v₂ : α) :
    alSet (alSet l k v₁) k v₂ = alSet l k v₂ := by
  induction l with
  | nil => simp [alSet]
  | cons p t ih =>
    obtain ⟨k₁, w⟩ := p
    by_cases h : k₁ = k
    · subst h; simp [alSet]
    · simp [alSet, h, ih]

theorem stepInit_flag (st : GenState) (b : String) (hb : b ≠ "ie") :
    (stepInit st b).ieAliased = st.ieAliased := by
  have hbeq : (b == "ie") = false := by simp [hb]
  simp only [stepInit, hbeq]
  split <;> simp

theorem stepOsInit_flag (st : GenState) (b o : String) :
    (stepOsInit st b o).ieAliased = st.ieAliased := by
  simp only [stepOsInit]
  split <;> rfl

theorem stepChoice_flag (pick : List String → String) (st : GenState) (b o : String) :
    (stepChoice pick st b o).ieAliased = st.ieAliased := rfl

theorem stepChoice_modern (pick : List String → String) (st : GenState) (b o : String) :
    (stepChoice pick st b o).modern = st.modern := rfl

theorem stepWin10_flag (st : GenState) (b o : String) :
    (stepWin10 st b o).ieAliased = st.ieAliased := by
  simp only [stepWin10]
  split
  · split <;> rfl
  · rfl

theorem stepEdge_ne (st : GenState) (b : String) (hb : b ≠ "edge") :
    stepEdge st b = st := by
  unfold stepEdge
  simp [hb]

theorem stepEdge_eq (st : GenState) :
    stepEdge st "edge" =
      { st with legacy := alRemove st.legacy "ie", ieAliased := true } := by
  unfold stepEdge
  simp

/-- Elimination of a successful append phase: the modern table gains an
appended entry at `b` and nothing else changes. -/
theorem stepAppend_elim (st st₂ : GenState) (b o u : String)
    (h : stepAppend st b o u = some st₂) :
    ∃ e e₁, alGet st.modern b = some e ∧ modAppendOs e o u = some e₁ ∧
      st₂.modern = alSet st.modern b e₁ ∧ st₂.legacy = st.legacy ∧
      st₂.ieAliased = st.ieAliased := by
  unfold stepAppend at h
  cases hg : alGet st.modern b with
  | none => rw [hg] at h; cases h
  | some e =>
    simp only [hg] at h
    cases ha : modAppendOs e o u with
    | none => simp [ha] at h
    | some e₁ =>
      simp only [ha, Option.some.injEq] at h
      subst h
      exact ⟨e, e₁, rfl, ha, rfl, rfl, rfl⟩

/-- Elimination of a successful loop iteration into its phases. -/
theorem step_ok_elim (pick : List String → String) (st st' : GenState) (r : Record)
    (h : step pick st r = .ok st') :
    ∃ st₂, stepAppend (stepOsInit (stepInit st r.normalized_browser)
        r.normalized_browser r.normalized_os)
        r.normalized_browser r.normalized_os r.useragent = some st₂ ∧
      st' = stepEdge (stepWin10 (stepChoice pick st₂ r.normalized_browser r.normalized_os)
        r.normalized_browser r.normalized_os) r.normalized_browser := by
  unfold step at h
  simp only [] at h
  cases ha : stepAppend (stepOsInit (stepInit st r.normalized_browser)
      r.normalized_browser r.normalized_os)
      r.normalized_browser r.normalized_os r.useragent with
  | none => simp [ha] at h
  | some st₂ =>
    simp only [ha, Except.ok.injEq] at h
    exact ⟨st₂, rfl, h.symm⟩

theorem stepInit_legacy_other (st : GenState) (b k : String) (hk : ¬b = k) :
    alGet (stepInit st b).legacy k = alGet st.legacy k := by
  simp only [stepInit]
  split
  · simp [alGet_alSet, hk]
  · rfl

theorem stepOsInit_legacy_other (st : GenState) (b o k : String)
    (hk : ¬writeKey st b = k) :
    alGet (stepOsInit st b o).legacy k = alGet st.legacy k := by
  simp only [stepOsInit]
  split
  · rfl
  · simp [alGet_alSet, hk]

theorem stepChoice_legacy_other (pick : List String → String) (st : GenState) (b o k : String)
    (hk : ¬writeKey st b = k) :
    alGet (stepChoice pick st b o).legacy k = alGet st.legacy k := by
  simp only [stepChoice]
  simp [alGet_alSet, hk]

theorem stepWin10_legacy_other (st : GenState) (b o k : String)
    (hk : ¬writeKey st b = k) :
    alGet (stepWin10 st b o).legacy k = alGet st.legacy k := by
  simp only [stepWin10]
  split
  · split <;> simp [alGet_alSet, hk]
  · rfl

theorem stepInit_modern_other (st : GenState) (b k : String) (hk : ¬b = k) :
    alGet (stepInit st b).modern k = alGet st.modern k := by
  simp only [stepInit]
  split
  · simp [alGet_alSet, hk]
  · rfl

theorem stepOsInit_modern_other (st : GenState) (b o k : String) (hk : ¬b = k) :
    alGet (stepOsInit st b o).modern k = alGet st.modern k := by
  simp only [stepOsInit]
  split
  · rfl
  · simp [alGet_alSet, hk]

theorem stepWin10_modern_other (st : GenState) (b o k : String) (hk : ¬b = k) :
    alGet (stepWin10 st b o).modern k = alGet st.modern k := by
  simp only [stepWin10]
  split
  · split
    · rfl
    · simp [alGet_alSet, hk]
  · rfl

theorem stepEdge_modern (st : GenState) (b : String) :
    (stepEdge st b).modern = st.modern := by
  simp only [stepEdge]
  split <;> rfl

/-! ## The ie/edge alias (C5) -/

theorem writeKey_ne_ie (st : GenState) (b : String) (hb : b ≠ "ie") :
    writeKey st b = b := by
  simp [writeKey, hb]

/-- A loop iteration for a record that is neither an `ie` nor an `edge`
browser changes neither the `edge` membership nor the alias flag. -/
theorem step_frame_edge (pick : List String → String) (st st' : GenState) (r : Record)
    (hie : r.normalized_browser ≠ "ie") (hed : r.normalized_browser ≠ "edge")
    (h : step pick st r = .ok st') :
    alGet st'.legacy "edge" = alGet st.legacy "edge" ∧ st'.ieAliased = st.ieAliased := by
  obtain ⟨st₂, hap, hrest⟩ := step_ok_elim pick st st' r h
  obtain ⟨e, e₁, _, _, _, hleg, hflag⟩ := stepAppend_elim _ _ _ _ _ hap
  set b := r.normalized_browser
  set o := r.normalized_os
  have hwk : ∀ s : GenState, ¬writeKey s b = "edge" := by
    intro s
    rw [writeKey_ne_ie s b hie]
    exact hed
  subst hrest
  rw [stepEdge_ne _ _ hed]
  constructor
  · rw [stepWin10_legacy_other _ _ _ _ (hwk _), stepChoice_legacy_other _ _ _ _ _ (hwk _),
      hleg, stepOsInit_legacy_other _ _ _ _ (hwk _),
      stepInit_legacy_other _ _ _ hed]
  · rw [stepWin10_flag, stepChoice_flag, hflag, stepOsInit_flag, stepInit_flag _ _ hie]

/-- A loop iteration for an `edge` record ends with the alias flag set. -/
theorem step_edge_sets_alias (pick : List String → String) (st st' : GenState) (r : Record)
    (hed : r.normalized_browser = "edge") (h : step pick st r = .ok st') :
    st'.ieAliased = true := by
  obtain ⟨st₂, _, hrest⟩ := step_ok_elim pick st st' r h
  subst hrest
  rw [hed, stepEdge_eq]

/-- Under a cache without `ie` records, once the `edge` key exists the
alias flag is set. -/
theorem foldlM_ie_invariant (pick : List String → String) (recs : List Record)
    (st st' : GenState)
    (hb : ∀ r ∈ recs, r.normalized_browser ≠ "ie")
    (hinv : alMem st.legacy "edge" = true → st.ieAliased = true)
    (hfold : recs.foldlM (step pick) st = .ok st') :
    alMem st'.legacy "edge" = true → st'.ieAliased = true := by
  induction recs generalizing st with
  | nil =>
    simp only [List.foldlM_nil] at hfold
    cases hfold
    exact hinv
  | cons r t ih =>
    rw [List.foldlM_cons] at hfold
    cases hs : step pick st r with
    | error e => rw [hs] at hfold; cases hfold
    | ok st₁ =>
      rw [hs] at hfold
      refine ih st₁ (fun x hx => hb x (List.mem_cons_of_mem r hx)) ?_ hfold
      by_cases hed : r.normalized_browser = "edge"
      · intro _
        exact step_edge_sets_alias pick st st₁ r hed hs
      · have hie : r.normalized_browser ≠ "ie" := hb r (List.mem_cons_self r t)
        obtain ⟨he, hf⟩ := step_frame_edge pick st st₁ r hie hed hs
        intro hmem
        rw [hf]
        apply hinv
        rw [alMem] at hmem ⊢
        rw [he] at hmem
        exact hmem

/-- C5 counterexample: a cache holding an `edge` record and then an `ie`
record ends with distinct `ie` and `edge` entries — the later `ie` record
rebinds the top-level `ie` key to its own dictionary, breaking the alias. -/
theorem c5_ie_edge_counterexample :
    legacyHasKey (tableOf (generate_user_agents pickHead
      (some ⟨0, [("w", [("d", [⟨"edge", "linux", "E"⟩, ⟨"ie", "linux", "I"⟩])])]⟩)))
      "edge" = true ∧
    legacyEntryOf (tableOf (generate_user_agents pickHead
      (some ⟨0, [("w", [("d", [⟨"edge", "linux", "E"⟩, ⟨"ie", "linux", "I"⟩])])]⟩)))
      "ie" ≠
    legacyEntryOf (tableOf (generate_user_agents pickHead
      (some ⟨0, [("w", [("d", [⟨"edge", "linux", "E"⟩, ⟨"ie", "linux", "I"⟩])])]⟩)))
      "edge" := by
  constructor
  · rfl
  · decide

/-- C5 (amended): after a completed run on a cache without `ie`-browser
records (and with ordinary browser names), whenever the `edge` key is
present the top-level `ie` key exists and reaches the very same entry as
`edge`. -/
theorem c5_ie_equals_edge (pick : List String → String) (c : Cache) (st : GenState)
    (h1 : noAtModernBrowser c = true) (hie : noIeBrowser c = true)
    (hrun : generate_user_agents pick (some c) = .ok (.table st))
    (hedge : legacyHasKey st "edge" = true) :
    legacyHasKey st "ie" = true ∧ legacyEntryOf st "ie" = legacyEntryOf st "edge" := by
  simp only [generate_user_agents] at hrun
  cases hfold : (allRecords c).foldlM (step pick) initGenState with
  | error e => rw [hfold] at hrun; cases hrun
  | ok st₀ =>
    rw [hfold] at hrun
    simp only [Except.ok.injEq, GenResult.table.injEq] at hrun
    subst hrun
    have hb : ∀ r ∈ allRecords c, r.normalized_browser ≠ "ie" := by
      intro r hr
      have := List.all_eq_true.mp hie r hr
      simpa using this
    have hinv := foldlM_ie_invariant pick (allRecords c) initGenState st₀ hb
      (by simp [initGenState, alMem, alGet]) hfold
    have hmem : alMem st₀.legacy "edge" = true := by
      have : legacyHasKey (backfill st₀) "edge" =
          alMem (backfill st₀).legacy "edge" := by
        simp [legacyHasKey]
      rw [this] at hedge
      rw [alMem] at hedge ⊢
      simp only [backfill] at hedge
      rw [alGet_map] at hedge
      cases hg : alGet st₀.legacy "edge" with
      | none => rw [hg] at hedge; simp at hedge
      | some v => simp [hg]
    have hflag : st₀.ieAliased = true := hinv hmem
    constructor
    · simp [legacyHasKey, backfill, hflag]
    · simp [legacyEntryOf, backfill, hflag]

/-- C5 witness: a cache with a single `edge` record. -/
theorem c5_ie_equals_edge_witness :
    legacyHasKey (tableOf (generate_user_agents pickHead
      (some ⟨0, [("w", [("d", [⟨"edge", "linux", "E"⟩])])]⟩))) "ie" = true ∧
    legacyEntryOf (tableOf (generate_user_agents pickHead
      (some ⟨0, [("w", [("d", [⟨"edge", "linux", "E"⟩])])]⟩))) "ie" =
    legacyEntryOf (tableOf (generate_user_agents pickHead
      (some ⟨0, [("w", [("d", [⟨"edge", "linux", "E"⟩])])]⟩))) "edge" :=
  c5_ie_equals_edge pickHead ⟨0, [("w", [("d", [⟨"edge", "linux", "E"⟩])])]⟩
    (tableOf (generate_user_agents pickHead
      (some ⟨0, [("w", [("d", [⟨"edge", "linux", "E"⟩])])]⟩)))
    (by decide) (by decide) rfl rfl

/-! ## The win10/windows coupling (C4) -/

/-- A top-level browser entry with its `win10` slot equal to its `windows`
slot (both in presence and in value). -/
def LegEntryOk (e : List (String × Option String)) : Prop :=
  alGet e "win10" = alGet e "windows"

/-- An `@modern` browser entry whose `win10` key, when present, is the
alias of the `windows` list: no own `win10` key, and the alias flag set
exactly when a `windows` list exists. -/
def ModEntryOk (e : ModEntry) : Prop :=
  alMem e.oss "win10" = false ∧ e.win10Alias = alMem e.oss "windows"

theorem stepWin10_ne (st : GenState) (b o : String) (ho : o ≠ "windows") :
    stepWin10 st b o = st := by
  simp [stepWin10, ho]

theorem stepChoice_legacy (pick : List String → String) (st : GenState) (b o : String) :
    (stepChoice pick st b o).legacy =
      alSet st.legacy (writeKey st b)
        (alSet (legacyEntry st (writeKey st b)) o
          (some (pick ((modReadOs ((alGet st.modern b).getD ⟨[], false⟩) o).getD [])))) :=
  rfl

theorem stepWin10_legacy_windows (st : GenState) (b : String) :
    (stepWin10 st b "windows").legacy =
      alSet st.legacy (writeKey st b)
        (alSet (legacyEntry st (writeKey st b)) "win10"
          ((alGet (legacyEntry st (writeKey st b)) "windows").getD none)) := by
  simp only [stepWin10]
  rw [if_pos (by simp)]
  split <;> rfl

theorem stepInit_legEq (st : GenState) (b : String)
    (hL : ∀ k e, alGet st.legacy k = some e → LegEntryOk e) :
    ∀ k e, alGet (stepInit st b).legacy k = some e → LegEntryOk e := by
  simp only [stepInit]
  split
  · intro k e hk
    rw [alGet_alSet] at hk
    by_cases hbk : b = k
    · rw [if_pos hbk] at hk
      cases hk
      rfl
    · rw [if_neg hbk] at hk
      exact hL k e hk
  · exact hL

theorem stepOsInit_legEq (st : GenState) (b o : String)
    (ho1 : o ≠ "win10") (ho2 : o ≠ "windows")
    (hL : ∀ k e, alGet st.legacy k = some e → LegEntryOk e) :
    ∀ k e, alGet (stepOsInit st b o).legacy k = some e → LegEntryOk e := by
  simp only [stepOsInit]
  split
  · exact hL
  · intro k e hk
    rw [alGet_alSet] at hk
    by_cases hbk : writeKey st b = k
    · rw [if_pos hbk] at hk
      cases hk
      unfold LegEntryOk
      rw [alGet_alSet, alGet_alSet, if_neg ho1, if_neg ho2]
      cases hg : alGet st.legacy (writeKey st b) with
      | none => simp [legacyEntry, hg, alGet]
      | some e₀ =>
        have := hL (writeKey st b) e₀ hg
        simpa [legacyEntry, hg] using this
    · rw [if_neg hbk] at hk
      exact hL k e hk

theorem stepChoice_legEq (pick : List String → String) (st : GenState) (b o : String)
    (ho1 : o ≠ "win10") (ho2 : o ≠ "windows")
    (hL : ∀ k e, alGet st.legacy k = some e → LegEntryOk e) :
    ∀ k e, alGet (stepChoice pick st b o).legacy k = some e → LegEntryOk e := by
  intro k e hk
  rw [stepChoice_legacy, alGet_alSet] at hk
  by_cases hbk : writeKey st b = k
  · rw [if_pos hbk] at hk
    cases hk
    unfold LegEntryOk
    rw [alGet_alSet, alGet_alSet, if_neg ho1, if_neg ho2]
    cases hg : alGet st.legacy (writeKey st b) with
    | none => simp [legacyEntry, hg, alGet]
    | some e₀ =>
      have := hL (writeKey st b) e₀ hg
      simpa [legacyEntry, hg] using this
  · rw [if_neg hbk] at hk
    exact hL k e hk

/-- After the `windows` branch, the modified top-level entry couples its
`win10` slot to its `windows` slot whatever it held before; the other
entries only need the coupling beforehand. -/
theorem stepChoiceWin10_windows_legEq (pick : List String → String) (st : GenState) (b : String)
    (hL : ∀ k e, ¬writeKey st b = k → alGet st.legacy k = some e → LegEntryOk e) :
    ∀ k e, alGet (stepWin10 (stepChoice pick st b "windows") b "windows").legacy k =
      some e → LegEntryOk e := by
  intro k e hk
  have hflag : (stepChoice pick st b "windows").ieAliased = st.ieAliased :=
    stepChoice_flag pick st b "windows"
  have hwk : writeKey (stepChoice pick st b "windows") b = writeKey st b := by
    simp [writeKey, hflag]
  rw [stepWin10_legacy_windows, hwk] at hk
  rw [alGet_alSet] at hk
  by_cases hbk : writeKey st b = k
  · rw [if_pos hbk] at hk
    cases hk
    have hentry : legacyEntry (stepChoice pick st b "windows") (writeKey st b) =
        alSet (legacyEntry st (writeKey st b)) "windows"
          (some (pick ((modReadOs ((alGet st.modern b).getD ⟨[], false⟩) "windows").getD []))) := by
      unfold legacyEntry
      rw [stepChoice_legacy, alGet_alSet]
      simp [legacyEntry]
    rw [hentry]
    unfold LegEntryOk
    simp [alGet_alSet]
  · rw [if_neg hbk] at hk
    rw [stepChoice_legacy, alGet_alSet, if_neg hbk] at hk
    exact hL k e hbk hk

theorem stepEdge_legEq (st : GenState) (b : String)
    (hL : ∀ k e, alGet st.legacy k = some e → LegEntryOk e) :
    ∀ k e, alGet (stepEdge st b).legacy k = some e → LegEntryOk e := by
  intro k e hk
  by_cases hb : b = "edge"
  · subst hb
    rw [stepEdge_eq] at hk
    simp only at hk
    rw [alGet_alRemove] at hk
    by_cases hke : ("ie" : String) = k
    · rw [if_pos hke] at hk; cases hk
    · rw [if_neg hke] at hk
      exact hL k e hk
  · rw [stepEdge_ne st b hb] at hk
    exact hL k e hk

/-- One loop iteration preserves the legacy win10/windows coupling, as
long as the record's normalized OS is not the reserved name `win10`. -/
theorem step_legEq (pick : List String → String) (st st' : GenState) (r : Record)
    (ho : r.normalized_os ≠ "win10")
    (hL : ∀ k e, alGet st.legacy k = some e → LegEntryOk e)
    (h : step pick st r = .ok st') :
    ∀ k e, alGet st'.legacy k = some e → LegEntryOk e := by
  obtain ⟨st₂, hap, hrest⟩ := step_ok_elim pick st st' r h
  obtain ⟨eM, eM₁, hgm, ham, hmod2, hleg2, hflag2⟩ := stepAppend_elim _ _ _ _ _ hap
  subst hrest
  have hwk2 : writeKey st₂ r.normalized_browser =
      writeKey (stepInit st r.normalized_browser) r.normalized_browser := by
    unfold writeKey
    rw [hflag2, stepOsInit_flag]
  by_cases hw : r.normalized_os = "windows"
  · refine stepEdge_legEq _ _ ?_
    rw [hw]
    refine stepChoiceWin10_windows_legEq pick st₂ _ ?_
    intro k e hk hget
    rw [hleg2] at hget
    rw [hwk2] at hk
    rw [stepOsInit_legacy_other _ _ _ _ hk] at hget
    exact stepInit_legEq st r.normalized_browser hL k e hget
  · refine stepEdge_legEq _ _ ?_
    rw [stepWin10_ne _ _ _ hw]
    have hA : ∀ k e, alGet st₂.legacy k = some e → LegEntryOk e := by
      rw [hleg2]
      exact stepOsInit_legEq _ _ _ ho hw (stepInit_legEq st r.normalized_browser hL)
    exact stepChoice_legEq pick st₂ _ _ ho hw hA

theorem modEntryOk_nil : ModEntryOk ⟨[], false⟩ := by
  constructor <;> rfl

theorem modEntryOk_modWriteOs (e : ModEntry) (o : String)
    (h1 : o ≠ "win10") (h2 : o ≠ "windows") (hq : ModEntryOk e) :
    ModEntryOk (modWriteOs e o []) := by
  have hb1 : (o == "win10") = false := by simp [h1]
  obtain ⟨hq1, hq2⟩ := hq
  simp only [modWriteOs, hb1, Bool.false_eq_true, if_false]
  constructor
  · simp [alMem_alSet, h1, hq1]
  · simp [alMem_alSet, h2, hq2]

theorem modEntryOk_modAppendOs (e e₁ : ModEntry) (o u : String)
    (h1 : o ≠ "win10") (h2 : o ≠ "windows")
    (ha : modAppendOs e o u = some e₁) (hq : ModEntryOk e) :
    ModEntryOk e₁ := by
  have hb1 : (o == "win10") = false := by simp [h1]
  obtain ⟨hq1, hq2⟩ := hq
  simp only [modAppendOs, hb1, Bool.false_and, Bool.false_eq_true, if_false] at ha
  cases hg : alGet e.oss o with
  | none => rw [hg] at ha; cases ha
  | some l =>
    rw [hg] at ha
    simp only [Option.some.injEq] at ha
    subst ha
    constructor
    · simp [alMem_alSet, h1, hq1]
    · simp [alMem_alSet, h2, hq2]

theorem modAppendOs_windows (e e₁ : ModEntry) (u : String)
    (ha : modAppendOs e "windows" u = some e₁) :
    alMem e₁.oss "windows" = true ∧ e₁.win10Alias = e.win10Alias := by
  simp only [modAppendOs, show (("windows" : String) == "win10") = false from rfl,
    Bool.false_and, Bool.false_eq_true, if_false] at ha
  cases hg : alGet e.oss "windows" with
  | none => rw [hg] at ha; cases ha
  | some l =>
    rw [hg] at ha
    simp only [Option.some.injEq] at ha
    subst ha
    constructor
    · simp [alMem_alSet]
    · rfl

theorem modEntryOk_alias (e : ModEntry) (hw : alMem e.oss "windows" = true) :
    ModEntryOk (modAliasWin10 e) := by
  constructor
  · simp [modAliasWin10, alMem, alGet_alRemove]
  · show true = alMem (alRemove e.oss "win10") "windows"
    rw [alMem, alGet_alRemove, if_neg (by simp : ¬("win10" : String) = "windows")]
    rw [alMem] at hw
    exact hw.symm

theorem stepInit_modInv (st : GenState) (b : String)
    (hM : ∀ k e, alGet st.modern k = some e → ModEntryOk e) :
    ∀ k e, alGet (stepInit st b).modern k = some e → ModEntryOk e := by
  simp only [stepInit]
  split
  · intro k e hk
    rw [alGet_alSet] at hk
    by_cases hbk : b = k
    · rw [if_pos hbk] at hk
      cases hk
      exact modEntryOk_nil
    · rw [if_neg hbk] at hk
      exact hM k e hk
  · exact hM

theorem stepOsInit_modInv (st : GenState) (b o : String)
    (h1 : o ≠ "win10") (h2 : o ≠ "windows")
    (hM : ∀ k e, alGet st.modern k = some e → ModEntryOk e) :
    ∀ k e, alGet (stepOsInit st b o).modern k = some e → ModEntryOk e := by
  simp only [stepOsInit]
  split
  · exact hM
  · intro k e hk
    rw [alGet_alSet] at hk
    by_cases hbk : b = k
    · rw [if_pos hbk] at hk
      cases hk
      cases hg : alGet st.modern b with
      | none =>
        simp only [hg, Option.getD_none]
        exact modEntryOk_modWriteOs _ _ h1 h2 modEntryOk_nil
      | some e₀ =>
        simp only [hg, Option.getD_some]
        exact modEntryOk_modWriteOs _ _ h1 h2 (hM b e₀ hg)
    · rw [if_neg hbk] at hk
      exact hM k e hk

theorem stepWin10_modern_windows (st : GenState) (b : String) (e : ModEntry)
    (hg : alGet st.modern b = some e) :
    (stepWin10 st b "windows").modern = alSet st.modern b (modAliasWin10 e) := by
  simp only [stepWin10]
  rw [if_pos (by simp)]
  simp only [hg]

/-- One loop iteration preserves the modern win10-alias invariant, as long
as the record's normalized OS is not the reserved name `win10`. -/
theorem step_modInv (pick : List String → String) (st st' : GenState) (r : Record)
    (ho : r.normalized_os ≠ "win10")
    (hM : ∀ k e, alGet st.modern k = some e → ModEntryOk e)
    (h : step pick st r = .ok st') :
    ∀ k e, alGet st'.modern k = some e → ModEntryOk e := by
  obtain ⟨st₂, hap, hrest⟩ := step_ok_elim pick st st' r h
  obtain ⟨eM, eM₁, hgm, ham, hmod2, hleg2, hflag2⟩ := stepAppend_elim _ _ _ _ _ hap
  subst hrest
  rw [stepEdge_modern]
  have hframe : ∀ k e, ¬r.normalized_browser = k →
      alGet (stepOsInit (stepInit st r.normalized_browser)
        r.normalized_browser r.normalized_os).modern k = some e → ModEntryOk e := by
    intro k e hbk hk
    rw [stepOsInit_modern_other _ _ _ _ hbk, stepInit_modern_other _ _ _ hbk] at hk
    exact hM k e hk
  by_cases hw : r.normalized_os = "windows"
  · have hg₂ : alGet (stepChoice pick st₂ r.normalized_browser r.normalized_os).modern
        r.normalized_browser = some eM₁ := by
      rw [stepChoice_modern, hmod2, alGet_alSet, if_pos rfl]
    rw [hw] at hg₂ ⊢
    rw [stepWin10_modern_windows _ _ _ hg₂]
    intro k e hk
    rw [stepChoice_modern, hmod2, alSet_alSet_same, alGet_alSet] at hk
    by_cases hbk : r.normalized_browser = k
    · rw [if_pos hbk] at hk
      cases hk
      rw [hw] at ham
      exact modEntryOk_alias _ (modAppendOs_windows _ _ _ ham).1
    · rw [if_neg hbk] at hk
      exact hframe k e hbk hk
  · rw [stepWin10_ne _ _ _ hw, stepChoice_modern, hmod2]
    intro k e hk
    rw [alGet_alSet] at hk
    by_cases hbk : r.normalized_browser = k
    · rw [if_pos hbk] at hk
      cases hk
      have hqM : ModEntryOk eM := by
        by_cases hbb : r.normalized_browser = r.normalized_browser
        · exact stepOsInit_modInv _ _ _ ho hw
            (stepInit_modInv st r.normalized_browser hM) r.normalized_browser eM hgm
        · exact absurd rfl hbb
      exact modEntryOk_modAppendOs _ _ _ _ ho hw ham hqM
    · rw [if_neg hbk] at hk
      exact hframe k e hbk hk

theorem backfillLegacyEntry_eq (e : List (String × Option String)) :
    backfillLegacyEntry e =
      bfLegStep (bfLegStep (bfLegStep (bfLegStep e "linux") "macosx") "windows") "win10" :=
  rfl

theorem backfillModEntry_eq (e : ModEntry) :
    backfillModEntry e =
      bfModStep (bfModStep (bfModStep (bfModStep e "linux") "macosx") "windows") "win10" :=
  rfl

theorem bfLegStep_legEq (e : List (String × Option String)) (o : String)
    (h1 : o ≠ "win10") (h2 : o ≠ "windows") (he : LegEntryOk e) :
    LegEntryOk (bfLegStep e o) := by
  unfold bfLegStep
  split
  · exact he
  · unfold LegEntryOk at *
    rw [alGet_alSet, alGet_alSet, if_neg h1, if_neg h2]
    exact he

theorem bfLegStep_windows_win10 (e : List (String × Option String))
    (he : LegEntryOk e) :
    LegEntryOk (bfLegStep (bfLegStep e "windows") "win10") := by
  unfold LegEntryOk at he
  by_cases hw : alMem e "windows" = true
  · have h10 : alMem e "win10" = true := by rw [alMem, he]; exact hw
    simp only [bfLegStep, hw, if_true, h10]
    exact he
  · have hw' : alMem e "windows" = false := by
      cases hmm : alMem e "windows"
      · rfl
      · exact absurd hmm hw
    have h10 : alMem (alSet e "windows" none) "win10" = false := by
      rw [alMem_alSet, if_neg (by simp : ¬("windows" : String) = "win10")]
      rw [alMem, he]
      exact hw'
    simp only [bfLegStep, hw', Bool.false_eq_true, if_false, h10]
    unfold LegEntryOk
    rw [alGet_alSet, if_pos rfl, alGet_alSet, if_neg (by simp : ¬("win10" : String) = "windows"),
      alGet_alSet, if_pos rfl]

theorem backfillLegacyEntry_legEq (e : List (String × Option String))
    (he : LegEntryOk e) : LegEntryOk (backfillLegacyEntry e) := by
  rw [backfillLegacyEntry_eq]
  exact bfLegStep_windows_win10 _
    (bfLegStep_legEq _ _ (by simp) (by simp)
      (bfLegStep_legEq _ _ (by simp) (by simp) he))

theorem bfModStep_flag (e : ModEntry) (o : String) :
    (bfModStep e o).win10Alias = e.win10Alias := by
  unfold bfModStep
  split <;> rfl

theorem bfModStep_mem_mono (e : ModEntry) (o x : String)
    (h : alMem e.oss x = true) : alMem (bfModStep e o).oss x = true := by
  unfold bfModStep
  split
  · exact h
  · show alMem (alSet e.oss o []) x = true
    rw [alMem_alSet]
    by_cases hox : o = x
    · rw [if_pos hox]
    · rw [if_neg hox]; exact h

theorem bfModStep_mem_after (e : ModEntry) (o : String) (ho : o ≠ "win10") :
    alMem (bfModStep e o).oss o = true := by
  unfold bfModStep
  by_cases h : modMemOs e o = true
  · rw [if_pos h]
    have hbe : (o == "win10") = false := by simp [ho]
    rw [modMemOs, hbe] at h
    simpa using h
  · rw [if_neg h]
    show alMem (alSet e.oss o []) o = true
    rw [alMem_alSet, if_pos rfl]

theorem bfModStep_ok (e : ModEntry) (o : String)
    (h1 : o ≠ "win10") (h2 : o ≠ "windows") (hq : ModEntryOk e) :
    ModEntryOk (bfModStep e o) := by
  unfold bfModStep
  split
  · exact hq
  · obtain ⟨hq1, hq2⟩ := hq
    constructor
    · show alMem (alSet e.oss o []) "win10" = false
      rw [alMem_alSet, if_neg h1]
      exact hq1
    · show e.win10Alias = alMem (alSet e.oss o []) "windows"
      rw [alMem_alSet, if_neg h2]
      exact hq2

/-- After the backfill, the `@modern` `win10` slot reads the same list as
the `windows` slot. -/
theorem backfillModEntry_read_eq (e : ModEntry) (hq : ModEntryOk e) :
    modReadOs (backfillModEntry e) "win10" = modReadOs (backfillModEntry e) "windows" := by
  rw [backfillModEntry_eq]
  have hq₂ : ModEntryOk (bfModStep (bfModStep e "linux") "macosx") :=
    bfModStep_ok _ _ (by simp) (by simp) (bfModStep_ok _ _ (by simp) (by simp) hq)
  set e₂ := bfModStep (bfModStep e "linux") "macosx" with he₂
  obtain ⟨hq1, hq2⟩ := hq₂
  cases hfl : e₂.win10Alias with
  | true =>
    have hw : alMem e₂.oss "windows" = true := by rw [← hq2, hfl]
    simp [bfModStep, modMemOs, modReadOs, alMem_alSet, alGet_alSet, hfl, hw]
  | false =>
    have hw : alMem e₂.oss "windows" = false := by rw [← hq2, hfl]
    simp [bfModStep, modMemOs, modReadOs, alMem_alSet, alGet_alSet, hfl, hw, hq1]

/-- The record loop preserves both win10/windows invariants on caches
without `win10` normalized OS names. -/
theorem foldlM_c4_inv (pick : List String → String) (recs : List Record)
    (st st' : GenState)
    (ho : ∀ r ∈ recs, r.normalized_os ≠ "win10")
    (hL : ∀ k e, alGet st.legacy k = some e → LegEntryOk e)
    (hM : ∀ k e, alGet st.modern k = some e → ModEntryOk e)
    (hfold : recs.foldlM (step pick) st = .ok st') :
    (∀ k e, alGet st'.legacy k = some e → LegEntryOk e) ∧
    (∀ k e, alGet st'.modern k = some e → ModEntryOk e) := by
  induction recs generalizing st with
  | nil =>
    simp only [List.foldlM_nil] at hfold
    cases hfold
    exact ⟨hL, hM⟩
  | cons r t ih =>
    rw [List.foldlM_cons] at hfold
    cases hs : step pick st r with
    | error e => rw [hs] at hfold; cases hfold
    | ok st₁ =>
      rw [hs] at hfold
      exact ih st₁ (fun x hx => ho x (List.mem_cons_of_mem r hx))
        (step_legEq pick st st₁ r (ho r (List.mem_cons_self r t)) hL hs)
        (step_modInv pick st st₁ r (ho r (List.mem_cons_self r t)) hM hs)
        hfold

/-- C4 counterexample cache: a `windows` record followed by a `win10`
record for the same browser. -/
def c4cache : Cache :=
  ⟨0, [("w", [("d", [⟨"chrome", "windows", "A"⟩, ⟨"chrome", "win10", "B"⟩])])]⟩

/-- C4 counterexample: on a cache carrying a record whose normalized OS is
the reserved name `win10`, a run in which `secrets.choice` returns the
last candidate ends with the top-level `win10` slot holding `"B"` while
the `windows` slot holds `"A"`. -/
theorem c4_win10_counterexample :
    alGet ((legacyEntryOf (tableOf (generate_user_agents pickLast (some c4cache)))
        "chrome").getD []) "win10" = some (some "B") ∧
    alGet ((legacyEntryOf (tableOf (generate_user_agents pickLast (some c4cache)))
        "chrome").getD []) "windows" = some (some "A") ∧
    (some (some "B") : Option (Option String)) ≠ some (some "A") :=
  ⟨rfl, rfl, by decide⟩

/-- C4 (amended): after a completed run on a cache whose records carry
ordinary browser names and never the normalized OS name `win10`, every
top-level browser entry (including the aliased `ie` entry) holds equal
`win10` and `windows` slots, and every `@modern` browser entry reads the
same candidate list under `win10` and `windows`. -/
theorem c4_win10_equals_windows (pick : List String → String) (c : Cache) (st : GenState)
    (h1 : noAtModernBrowser c = true) (h2 : noWin10Os c = true)
    (hrun : generate_user_agents pick (some c) = .ok (.table st)) :
    (∀ b e, legacyEntryOf st b = some e → alGet e "win10" = alGet e "windows") ∧
    (∀ b e, alGet st.modern b = some e →
      modReadOs e "win10" = modReadOs e "windows") := by
  simp only [generate_user_agents] at hrun
  cases hfold : (allRecords c).foldlM (step pick) initGenState with
  | error e => rw [hfold] at hrun; cases hrun
  | ok st₀ =>
    rw [hfold] at hrun
    simp only [Except.ok.injEq, GenResult.table.injEq] at hrun
    subst hrun
    have ho : ∀ r ∈ allRecords c, r.normalized_os ≠ "win10" := by
      intro r hr
      have := List.all_eq_true.mp h2 r hr
      simpa using this
    obtain ⟨hL, hM⟩ := foldlM_c4_inv pick (allRecords c) initGenState st₀ ho
      (by intro k e hk; simp [initGenState, alGet] at hk)
      (by intro k e hk; simp [initGenState, alGet] at hk)
      hfold
    have main : ∀ key e, alGet (backfill st₀).legacy key = some e →
        alGet e "win10" = alGet e "windows" := by
      intro key e hk
      simp only [backfill] at hk
      rw [alGet_map] at hk
      cases hg : alGet st₀.legacy key with
      | none => rw [hg] at hk; cases hk
      | some e₀ =>
        rw [hg] at hk
        simp only [Option.map_some', Option.some.injEq] at hk
        subst hk
        exact backfillLegacyEntry_legEq e₀ (hL key e₀ hg)
    constructor
    · intro b e he
      unfold legacyEntryOf at he
      split at he
      · exact main "edge" e he
      · exact main b e he
    · intro b e he
      simp only [backfill] at he
      rw [alGet_map] at he
      cases hg : alGet st₀.modern b with
      | none => rw [hg] at he; cases he
      | some e₀ =>
        rw [hg] at he
        simp only [Option.map_some', Option.some.injEq] at he
        subst he
        exact backfillModEntry_read_eq e₀ (hM b e₀ hg)

/-- C4 witness cache: one plain `windows` record. -/
def w4cache : Cache := ⟨0, [("w", [("d", [⟨"chrome", "windows", "A"⟩])])]⟩

/-- C4 witness: on the concrete witness cache the chrome entry holds equal
`win10` and `windows` slots. -/
theorem c4_win10_equals_windows_witness :
    alGet ((legacyEntryOf (tableOf (generate_user_agents pickHead (some w4cache)))
        "chrome").getD []) "win10" =
      alGet ((legacyEntryOf (tableOf (generate_user_agents pickHead (some w4cache)))
        "chrome").getD []) "windows" :=
  (c4_win10_equals_windows pickHead w4cache
      (tableOf (generate_user_agents pickHead (some w4cache)))
      (by decide) (by decide) rfl).1 "chrome"
    ((legacyEntryOf (tableOf (generate_user_agents pickHead (some w4cache)))
        "chrome").getD []) rfl

/-! ## The four necessary OS keys (C3) -/

/-- The backfill guarantees a readable entry under every necessary OS key,
for every `@modern` browser entry whatsoever. -/
theorem backfillModEntry_read_some (e : ModEntry) :
    ∀ o ∈ necessary_os, (modReadOs (backfillModEntry e) o).isSome = true := by
  intro o ho
  have ho4 : o = "linux" ∨ o = "macosx" ∨ o = "windows" ∨ o = "win10" := by
    simpa [necessary_os] using ho
  rw [backfillModEntry_eq]
  rcases ho4 with h | h | h | h
  · subst h
    have h₁ : alMem (bfModStep e "linux").oss "linux" = true :=
      bfModStep_mem_after e "linux" (by simp)
    have h₂ := bfModStep_mem_mono _ "macosx" _ h₁
    have h₃ := bfModStep_mem_mono _ "windows" _ h₂
    have h₄ := bfModStep_mem_mono _ "win10" _ h₃
    simp only [modReadOs, show (("linux" : String) == "win10") = false from rfl,
      Bool.false_and, Bool.false_eq_true, if_false]
    simpa [alMem] using h₄
  · subst h
    have h₁ : alMem (bfModStep (bfModStep e "linux") "macosx").oss "macosx" = true :=
      bfModStep_mem_after _ "macosx" (by simp)
    have h₂ := bfModStep_mem_mono _ "windows" _ h₁
    have h₃ := bfModStep_mem_mono _ "win10" _ h₂
    simp only [modReadOs, show (("macosx" : String) == "win10") = false from rfl,
      Bool.false_and, Bool.false_eq_true, if_false]
    simpa [alMem] using h₃
  · subst h
    have h₁ : alMem (bfModStep (bfModStep (bfModStep e "linux") "macosx")
        "windows").oss "windows" = true :=
      bfModStep_mem_after _ "windows" (by simp)
    have h₂ := bfModStep_mem_mono _ "win10" _ h₁
    simp only [modReadOs, show (("windows" : String) == "win10") = false from rfl,
      Bool.false_and, Bool.false_eq_true, if_false]
    simpa [alMem] using h₂
  · subst h
    set E3 := bfModStep (bfModStep (bfModStep e "linux") "macosx") "windows" with hE3
    have hwin : alMem E3.oss "windows" = true := bfModStep_mem_after _ "windows" (by simp)
    cases hfl : (bfModStep E3 "win10").win10Alias with
    | true =>
      have hw4 := bfModStep_mem_mono E3 "win10" _ hwin
      simp only [modReadOs, show (("win10" : String) == "win10") = true from rfl,
        Bool.true_and, hfl, if_true]
      simpa [alMem] using hw4
    | false =>
      have hmem : alMem (bfModStep E3 "win10").oss "win10" = true := by
        by_cases hm : modMemOs E3 "win10" = true
        · have hE : bfModStep E3 "win10" = E3 := by unfold bfModStep; rw [if_pos hm]
          rw [hE]
          have hfl3 : E3.win10Alias = false := by rw [← bfModStep_flag E3 "win10", hfl]
          rw [modMemOs, show (("win10" : String) == "win10") = true from rfl,
            Bool.true_and, hfl3, Bool.false_or] at hm
          exact hm
        · have hE : bfModStep E3 "win10" = { E3 with oss := alSet E3.oss "win10" [] } := by
            unfold bfModStep; rw [if_neg hm]
          rw [hE]
          show alMem (alSet E3.oss "win10" []) "win10" = true
          rw [alMem_alSet, if_pos rfl]
      simp only [modReadOs, show (("win10" : String) == "win10") = true from rfl,
        Bool.true_and, hfl, Bool.false_eq_true, if_false]
      simpa [alMem] using hmem

/-- C3 counterexample cache: one `ios` record. -/
def c3cache : Cache := ⟨0, [("w", [("d", [⟨"chrome", "ios", "U"⟩])])]⟩

/-- C3 counterexample: an `ios` record leaves an `ios` key in the chrome
`@modern` entry, so the entry holds five OS keys, not exactly the four
required ones. -/
theorem c3_exactly_four_counterexample :
    modMemOs ((alGet (tableOf (generate_user_agents pickHead (some c3cache))).modern
        "chrome").getD ⟨[], false⟩) "ios" = true ∧
    ¬("ios" ∈ necessary_os) := by
  constructor
  · rfl
  · decide

/-- C3 (amended): after a completed run on a cache whose records carry
ordinary browser names, every browser entry of the `@modern` table holds a
readable candidate list under each of the four required OS keys `linux`,
`macosx`, `windows`, `win10` — possibly alongside further OS keys such as
`ios` or `android`. -/
theorem c3_modern_has_required_os_keys (pick : List String → String) (c : Cache)
    (st : GenState)
    (h1 : noAtModernBrowser c = true)
    (hrun : generate_user_agents pick (some c) = .ok (.table st)) :
    ∀ b e, alGet st.modern b = some e →
      ∀ o ∈ necessary_os, (modReadOs e o).isSome = true := by
  simp only [generate_user_agents] at hrun
  cases hfold : (allRecords c).foldlM (step pick) initGenState with
  | error e => rw [hfold] at hrun; cases hrun
  | ok st₀ =>
    rw [hfold] at hrun
    simp only [Except.ok.injEq, GenResult.table.injEq] at hrun
    subst hrun
    intro b e he
    simp only [backfill] at he
    rw [alGet_map] at he
    cases hg : alGet st₀.modern b with
    | none => rw [hg] at he; cases he
    | some e₀ =>
      rw [hg] at he
      simp only [Option.map_some', Option.some.injEq] at he
      subst he
      exact backfillModEntry_read_some e₀

/-- C3 witness cache: one plain `linux` record. -/
def w3cache : Cache := ⟨0, [("w", [("d", [⟨"chrome", "linux", "U"⟩])])]⟩

/-- C3 witness: on the concrete witness cache the chrome entry reads a
list under `linux`. -/
theorem c3_modern_has_required_os_keys_witness :
    (modReadOs ((alGet (tableOf (generate_user_agents pickHead (some w3cache))).modern
        "chrome").getD ⟨[], false⟩) "linux").isSome = true :=
  c3_modern_has_required_os_keys pickHead w3cache
    (tableOf (generate_user_agents pickHead (some w3cache)))
    (by decide) rfl "chrome"
    ((alGet (tableOf (generate_user_agents pickHead (some w3cache))).modern
        "chrome").getD ⟨[], false⟩) rfl "linux" (by decide)

end UserAgents
